import Mathlib

/-!
Shallow embedding of `src/ModelManager.cpp` from translateLocally.

Strings (`QString`) are modelled as lists of characters (`QStr`).  The
`Model` record and its methods (`isLocal`, `isSameModel`, `outdated`,
`operator<`) live in the header `ModelManager.h`, which is not part of the
source tree here; they are modelled from the spec (§3 of spec.md) and each
such definition says so in its doc comment.  Version / API numbers are
modelled as integers (only their ordering is relevant to the verified
properties).  Filesystem state, the registry lists and the Qt `error(...)`
signals are made explicit: every stateful member function becomes a pure
function from an explicit `MMState` (plus inputs standing for the outcomes
of primitive filesystem calls) to a result, a new state and the list of
emitted error events.
-/

set_option autoImplicit false

/-- A `QString`, modelled as its list of characters. -/
abbrev QStr := List Char

/-- `QString::startsWith`: `s` starts with the (whole) string `pre`. -/
def qStartsWith (s pre : QStr) : Bool :=
  pre.isPrefixOf s

/-- `QDir::filePath`: join a directory path and a file name.  Returns the
file name unchanged when it is already absolute, mirroring Qt. -/
def qdirFilePath (dir f : QStr) : QStr :=
  if dir = [] then f
  else if f.head? = some '/' then f
  else dir ++ '/' :: f

/-- Split a character list at every occurrence of `c`, keeping empty
sections (the behaviour of `QString::section` / `QString::split`). -/
def splitOnChar (c : Char) : QStr → List QStr
  | [] => [[]]
  | x :: xs =>
    match splitOnChar c xs with
    | [] => [[]]
    | h :: t => if x = c then [] :: h :: t else (x :: h) :: t

/-- Join sections with the separator `c` (inverse of `splitOnChar`). -/
def joinWith (c : Char) : List QStr → QStr
  | [] => []
  | [l] => l
  | l :: ls => l ++ c :: joinWith c ls

/-- `QString::section("/", 0, -2)`: everything before the last
`/`-separated section, i.e. drop the final section.  Yields the empty
string when the input has no `/` at all. -/
def sectionDropLast (s : QStr) : QStr :=
  joinWith '/' ((splitOnChar '/' s).dropLast)

/-- Longest common character prefix of two strings; this is what the
`std::mismatch`-based update inside `getCommonPrefixPath` computes. -/
def lcp : QStr → QStr → QStr
  | a :: as, b :: bs => if a = b then a :: lcp as bs else []
  | _, _ => []

/-- `getCommonPrefixPath` (anonymous namespace of ModelManager.cpp):
fold the longest-common-prefix over the list, then cut the result back to
the last `/` with `QString::section("/", 0, -2)`. -/
def getCommonPrefixPath (list : List QStr) : QStr :=
  match list with
  | [] => []
  | p :: rest => sectionDropLast (rest.foldl lcp p)

/-- `QFileInfo::completeSuffix`: everything after the first `.` of the
name (empty when there is no dot). -/
def completeSuffix (name : QStr) : QStr :=
  match splitOnChar '.' name with
  | [] => []
  | _ :: rest => joinWith '.' rest

/-- `QString::split(sep)[0]`: the text before the first occurrence of the
(non-empty) separator, or the whole string when the separator is absent. -/
def takeBeforeSep (sep : QStr) : QStr → QStr
  | [] => []
  | c :: cs => if sep.isPrefixOf (c :: cs) then [] else c :: takeBeforeSep sep cs

/-- Provenance parameter of `parseModelInfo`
(`translateLocally::models::Location`). -/
inductive Location where
  | Local
  | Remote
deriving DecidableEq, Repr

/-- Modelled from the spec (§3 of spec.md): the `Model` record of
`ModelManager.h`, which is not part of the provided source.  String fields
default to the empty string; the provenance-qualified version/API numbers
default to an "unknown" sentinel (`none`), matching `model.set(key, "")`
for a missing numeric field. -/
structure Model where
  shortName : QStr := []
  modelName : QStr := []
  src : QStr := []
  trg : QStr := []
  type : QStr := []
  path : QStr := []
  url : QStr := []
  localversion : Option Int := none
  localAPI : Option Int := none
  remoteversion : Option Int := none
  remoteAPI : Option Int := none
deriving DecidableEq, Repr

/-- The default-constructed sentinel `Model{}` returned on every failure
path. -/
def Model.empty : Model := {}

/-- Modelled from the spec (§3): `Model::isLocal()` ⇔ `path` non-empty. -/
def Model.isLocal (m : Model) : Bool :=
  m.path ≠ []

/-- Modelled from the spec (§3): identity key — two Models denote the same
package iff `shortName`, source language, target language and `type`
match. -/
def Model.isSameModel (a b : Model) : Bool :=
  a.shortName = b.shortName ∧ a.src = b.src ∧ a.trg = b.trg ∧ a.type = b.type

/-- Modelled from the spec (§3): a Model is outdated iff it is local, has
a known `remoteversion`, and that version exceeds the local one (an
unknown local version counts as 0). -/
def Model.outdated (m : Model) : Bool :=
  m.isLocal &&
    match m.remoteversion with
    | none => false
    | some rv => rv > m.localversion.getD 0

/-- Modelled from the spec (§3): the total order on Models used by
`operator<` — display name, then language pair, lexicographically. -/
def Model.keyLt (a b : Model) : Prop :=
  a.modelName < b.modelName ∨
    (a.modelName = b.modelName ∧
      (a.src < b.src ∨ (a.src = b.src ∧ a.trg < b.trg)))

/-- The non-strict companion of `Model.keyLt`, the order in which
`std::sort` leaves `remoteModels_`. -/
def Model.keyLe (a b : Model) : Prop :=
  a.modelName < b.modelName ∨
    (a.modelName = b.modelName ∧
      (a.src < b.src ∨ (a.src = b.src ∧ a.trg ≤ b.trg)))

instance : DecidableRel Model.keyLt := by
  intro a b; unfold Model.keyLt; infer_instance

instance : DecidableRel Model.keyLe := by
  intro a b; unfold Model.keyLe; infer_instance

instance : IsTotal Model Model.keyLe := by
  constructor
  intro a b
  unfold Model.keyLe
  rcases lt_trichotomy a.modelName b.modelName with h | h | h
  · exact Or.inl (Or.inl h)
  · rcases lt_trichotomy a.src b.src with h2 | h2 | h2
    · exact Or.inl (Or.inr ⟨h, Or.inl h2⟩)
    · rcases le_total a.trg b.trg with h3 | h3
      · exact Or.inl (Or.inr ⟨h, Or.inr ⟨h2, h3⟩⟩)
      · exact Or.inr (Or.inr ⟨h.symm, Or.inr ⟨h2.symm, h3⟩⟩)
    · exact Or.inr (Or.inr ⟨h.symm, Or.inl h2⟩)
  · exact Or.inr (Or.inl h)

instance : IsTrans Model Model.keyLe := by
  constructor
  intro a b c hab hbc
  unfold Model.keyLe at *
  rcases hab with h1 | ⟨e1, h1⟩
  · rcases hbc with h2 | ⟨e2, _⟩
    · exact Or.inl (h1.trans h2)
    · exact Or.inl (e2 ▸ h1)
  · rcases hbc with h2 | ⟨e2, h2⟩
    · exact Or.inl (e1 ▸ h2)
    · refine Or.inr ⟨e1.trans e2, ?_⟩
      rcases h1 with h1 | ⟨f1, h1⟩
      · rcases h2 with h2 | ⟨f2, _⟩
        · exact Or.inl (h1.trans h2)
        · exact Or.inl (f2 ▸ h1)
      · rcases h2 with h2 | ⟨f2, h2⟩
        · exact Or.inl (f1 ▸ h2)
        · exact Or.inr ⟨f1.trans f2, h1.trans h2⟩

/-- JSON values as they matter to `parseModelInfo`: strings and numbers.
`QJsonValue::toString` on a non-string yields the null string and
`QJsonValue::toDouble` on a non-number yields 0. -/
inductive JsonValue where
  | str (s : QStr)
  | num (v : Int)
deriving DecidableEq, Repr

/-- `QJsonValue::toString()` with its null-string default. -/
def JsonValue.asString : JsonValue → QStr
  | .str s => s
  | .num _ => []

/-- `QJsonValue::toDouble()` with its 0 default. -/
def JsonValue.asNumber : JsonValue → Int
  | .num v => v
  | .str _ => 0

/-- A `QJsonObject`: an association list from keys to values. -/
abbrev JsonObj := List (QStr × JsonValue)

/-- `QJsonObject::find` / `operator[]` as an association-list lookup. -/
def jfind (obj : JsonObj) (k : QStr) : Option JsonValue :=
  match obj with
  | [] => none
  | (k', v) :: rest => if k' = k then some v else jfind rest k

/-- `QJsonObject::insert`: replaces any existing entry for the key. -/
def jinsert (k : QStr) (v : JsonValue) (obj : JsonObj) : JsonObj :=
  (k, v) :: obj.filter (fun kv => kv.1 ≠ k)

/-- The error events `emit error(...)` of ModelManager.cpp, named after
their call sites. -/
inductive Event where
  | errTempDirFailed
  | errChdirFailed (path : QStr)
  | errExtractTrouble
  | errNoFilesExtracted
  | errNoPrefix
  | errFindOpenParseJson (path : QStr)
  | errOpenJsonFile (path : QStr)
  | errMissingCritical (key : QStr)
  | errCorruptedJson (path : QStr)
  | errRenameFailed
  | errRemoveJson (path : QStr)
  | errRemoveDir (path : QStr)
deriving DecidableEq, Repr

/-- `ModelManager::parseModelInfo`: copy the non-critical string fields
(defaulting to the empty string), copy the provenance-qualified numeric
fields (leaving the unknown sentinel when absent), then require the
critical key — `path` for local models, `url` for remote ones.  When the
critical key is missing the whole descriptor is dropped: an error event is
emitted and the sentinel `Model{}` is returned. -/
def parseModelInfo (obj : JsonObj) (type : Location := .Local) : Model × List Event :=
  let getS : QStr → QStr := fun k =>
    match jfind obj k with
    | some v => v.asString
    | none => []
  let getF : QStr → Option Int := fun k =>
    match jfind obj k with
    | some v => some v.asNumber
    | none => none
  let base : Model :=
    { shortName := getS "shortName".data
      modelName := getS "modelName".data
      src := getS "src".data
      trg := getS "trg".data
      type := getS "type".data
      localversion := if type = .Local then getF "version".data else none
      localAPI := if type = .Local then getF "API".data else none
      remoteversion := if type = .Remote then getF "version".data else none
      remoteAPI := if type = .Remote then getF "API".data else none }
  let criticalKey : QStr := if type = .Local then "path".data else "url".data
  match jfind obj criticalKey with
  | some v =>
    (if type = .Local then { base with path := v.asString }
     else { base with url := v.asString }, [])
  | none => (Model.empty, [Event.errMissingCritical criticalKey])

/-- State of a directory's `model_info.json` file. -/
inductive DescStatus where
  | absent
  | unreadable
  | content (o : JsonObj)
deriving DecidableEq, Repr

/-- The explicit state of a `ModelManager`: the managed root
(`configDir_`), the process working directory, the entries of the managed
root, the `model_info.json` contents of every directory on disk, and the
registry lists. -/
structure MMState where
  configPath : QStr
  cwd : QStr
  rootEntries : List QStr
  fsDesc : List (QStr × DescStatus)
  localModels : List Model
  remoteModels : List Model
  newModels : List Model
  updatedModels : List Model
  archives : List QStr
deriving DecidableEq, Repr

/-- Lookup in the directory → descriptor map (first match wins). -/
def dlookup (dir : QStr) : List (QStr × DescStatus) → Option DescStatus
  | [] => none
  | (k, v) :: rest => if k = dir then some v else dlookup dir rest

/-- What `model_info.json` looks like in directory `dir` of state `st`. -/
def descAt (st : MMState) (dir : QStr) : DescStatus :=
  match dlookup dir st.fsDesc with
  | some s => s
  | none => .absent

/-- `ModelManager::isManagedModel`: local and under the managed root. -/
def isManagedModel (st : MMState) (m : Model) : Bool :=
  m.isLocal && qStartsWith m.path st.configPath

/-- `ModelManager::getModelInfoJsonFromDir`: empty object when the file is
absent; empty object plus an error event when it exists but cannot be
opened; otherwise the parsed content with the directory path injected
under the key `path` (replacing any authored value). -/
def getModelInfoJsonFromDir (st : MMState) (dir : QStr) : JsonObj × List Event :=
  match descAt st dir with
  | .absent => ([], [])
  | .unreadable => ([], [Event.errOpenJsonFile dir])
  | .content o => (jinsert "path".data (.str dir) o, [])

/-- `ModelManager::validateModel`: the descriptor of `path` must carry a
`path` key and must parse to a local-provenance Model. -/
def validateModel (st : MMState) (path : QStr) : Bool × List Event :=
  let (obj, ev) := getModelInfoJsonFromDir st path
  match jfind obj "path".data with
  | none => (false, ev ++ [Event.errFindOpenParseJson path])
  | some _ =>
    let (model, ev2) := parseModelInfo obj .Local
    if model.isLocal then (true, ev ++ ev2) else (false, ev ++ ev2)

/-- The data effect of `ModelManager::insertLocalModel`: the first entry
with the same identity is overwritten in place and `false` is returned;
with no identity match the model is appended at the end of the list
(`localModels_.append(model)`) and `true` is returned. -/
def insertLocalModel : List Model → Model → Bool × List Model
  | [], m => (true, [m])
  | l :: ls, m =>
    if l.isSameModel m then (false, m :: ls)
    else
      let r := insertLocalModel ls m
      (r.1, l :: r.2)

/-- Helper for `insertPosition`. -/
def insertPositionAux (m : Model) : List Model → Nat → Nat → Nat
  | [], _, pos => pos
  | l :: ls, i, pos =>
    insertPositionAux m ls (i + 1) (if Model.keyLt l m then i + 1 else pos)

/-- The `position` variable computed by `ModelManager::insertLocalModel`
(one past the last element strictly below `m`); it is only ever passed to
the `beginInsertRows` row notification, never used to place the element. -/
def insertPosition (l : List Model) (m : Model) : Nat :=
  insertPositionAux m l 0 0

/-- The inner loop of `ModelManager::updateAvailableModels`: find the
first local model with the same identity as remote model `r`, copy
`remoteAPI`/`remoteversion` onto it, and report whether a match was found
and whether the mutated entry is now outdated. -/
def copyRemote (l r : Model) : Model :=
  { l with remoteAPI := r.remoteAPI, remoteversion := r.remoteversion }

/-- Linear search of `localModels_` inside the loop body: the first local
model with the same identity as remote model `r` receives `r`'s remote
version and API, and the loop reports whether a match was found and
whether the mutated entry is now outdated. -/
def reconcileLocal : List Model → Model → List Model × Bool × Bool
  | [], _ => ([], false, false)
  | l :: ls, r =>
    if l.isSameModel r then
      (copyRemote l r :: ls, true, (copyRemote l r).outdated)
    else
      let rest := reconcileLocal ls r
      (l :: rest.1, rest.2)

/-- One iteration of the outer loop of `updateAvailableModels`: a remote
model with no local identity match goes to `newModels_`; a matched one
goes to `updatedModels_` iff the refreshed local entry is outdated. -/
def updateStep (acc : List Model × List Model × List Model) (r : Model) :
    List Model × List Model × List Model :=
  let ls' := reconcileLocal acc.1 r
  (ls'.1,
   acc.2.1 ++ (if ls'.2.1 then [] else [r]),
   acc.2.2 ++ (if ls'.2.2 then [r] else []))

/-- `ModelManager::updateAvailableModels`: rebuild `newModels_` and
`updatedModels_` from scratch by iterating over `remoteModels_`, copying
remote version/API data onto matching local entries as a side effect. -/
def updateAvailableModels (st : MMState) : MMState :=
  let res := st.remoteModels.foldl updateStep (st.localModels, [], [])
  { st with localModels := res.1, newModels := res.2.1, updatedModels := res.2.2 }

/-- `ModelManager::parseRemoteModels`: clear `remoteModels_`, append the
parse result of every element of the catalog's `models` array (sentinel
results included — the code never filters them), sort with `operator<`,
then reconcile.  `std::sort` is modelled by insertion sort; the claims
only depend on the result being sorted. -/
def parseRemoteModels (objs : List JsonObj) (st : MMState) : MMState × List Event :=
  let parsed := objs.map (fun o => parseModelInfo o .Remote)
  let st1 := { st with remoteModels := List.insertionSort Model.keyLe (parsed.map Prod.fst) }
  (updateAvailableModels st1, (parsed.map Prod.snd).flatten)

/-- `ModelManager::extractTarGz`: remember the working directory, move
into the destination (failing cleanly when the `chdir` fails), run the
libarchive extraction there, join every reported entry path onto the
destination, and put the working directory back before returning —
successful or not.  `canChdir` and `innerOk` stand for the outcomes of the
two fallible primitives and `entries` for the entry names the extraction
loop reported before finishing or failing. -/
def extractTarGz (dest : QStr) (canChdir innerOk : Bool) (entries : List QStr)
    (st : MMState) : Bool × List QStr × MMState × List Event :=
  match canChdir with
  | false => (false, [], st, [Event.errChdirFailed dest])
  | true =>
    let stIn := { st with cwd := dest }
    let files := entries.map (qdirFilePath dest)
    let stOut := { stIn with cwd := st.cwd }
    (innerOk, files, stOut, if innerOk then [] else [Event.errExtractTrouble])

/-- Effect of `QDir::rename(old, new)` on the descriptor map: the
directory itself and everything below it move under the new path. -/
def renameFs (old new : QStr) : List (QStr × DescStatus) → List (QStr × DescStatus)
  | [] => []
  | (k, v) :: rest =>
    (if k = old then (new, v)
     else if (old ++ ['/']).isPrefixOf k then (new ++ k.drop old.length, v)
     else (k, v)) :: renameFs old new rest

/-- `QString("%1-%2").arg(filename.split(".tar.gz")[0]).arg(timestamp)`:
the unique destination name under the managed root. -/
def newModelDirName (filename timestamp : QStr) : QStr :=
  takeBeforeSep ".tar.gz".data filename ++ '-' :: timestamp

/-- `ModelManager::writeModel`: the install pipeline.  Each fallible
primitive outcome is an explicit input: `tempOk` (QTemporaryDir validity),
`canChdir`/`innerOk`/`entries` (the extraction, see `extractTarGz`),
`timestamp` (the uniqueness token) and `renameOk` (the final
`QDir::rename`).  Every gate failure returns the sentinel `Model{}`
without touching the managed root or the registry; success renames the
prefix directory into the managed root, re-parses the descriptor from its
final location, upserts it and reconciles. -/
def writeModel (fname0 fileBaseName : QStr) (tempOk : Bool) (tempPath : QStr)
    (canChdir innerOk : Bool) (entries : List QStr) (timestamp : QStr) (renameOk : Bool)
    (st : MMState) : Model × MMState × List Event :=
  let filename := if fname0 = [] then fileBaseName else fname0
  match tempOk with
  | false => (Model.empty, st, [Event.errTempDirFailed])
  | true =>
    let ex := extractTarGz tempPath canChdir innerOk entries st
    let extracted := ex.2.1
    let st1 := ex.2.2.1
    let ev1 := ex.2.2.2
    match ex.1 with
    | false => (Model.empty, st1, ev1)
    | true =>
      if extracted = [] then (Model.empty, st1, ev1 ++ [Event.errNoFilesExtracted])
      else
        let pfx := getCommonPrefixPath extracted
        if pfx = [] then (Model.empty, st1, ev1 ++ [Event.errNoPrefix])
        else
          let va := validateModel st1 pfx
          match va.1 with
          | false => (Model.empty, st1, ev1 ++ va.2)
          | true =>
            let newName := newModelDirName filename timestamp
            let newPath := st1.configPath ++ '/' :: newName
            match renameOk with
            | false => (Model.empty, st1, ev1 ++ va.2 ++ [Event.errRenameFailed])
            | true =>
              let st2 := { st1 with rootEntries := st1.rootEntries ++ [newName],
                                    fsDesc := renameFs pfx newPath st1.fsDesc }
              let rd := getModelInfoJsonFromDir st2 newPath
              let pm := parseModelInfo rd.1 .Local
              let st3 := { st2 with localModels := (insertLocalModel st2.localModels pm.1).2 }
              (pm.1, updateAvailableModels st3, ev1 ++ va.2 ++ rd.2 ++ pm.2)

/-- `QList::indexOf` on `localModels_`; `Model::operator==` is modelled
from the spec (§3/§4.3) as the identity key. -/
def indexOfModel (l : List Model) (m : Model) : Option Nat :=
  l.findIdx? (fun x => x.isSameModel m)

/-- `QList::removeOne` on `localModels_` (first identity match). -/
def removeOneModel : List Model → Model → List Model
  | [], _ => []
  | l :: ls, m => if l.isSameModel m then ls else l :: removeOneModel ls m

/-- `ModelManager::removeModel`: refuse unmanaged models outright; delete
`model_info.json` as the commit point (failure aborts with the state
untouched); recursively delete the directory (failure is reported but does
not stop the unregistration); then drop the entry from `localModels_` and
reconcile. -/
def removeModel (m : Model) (rmJsonOk rmRecOk : Bool) (st : MMState) :
    Bool × MMState × List Event :=
  match isManagedModel st m with
  | false => (false, st, [])
  | true =>
    match rmJsonOk with
    | false => (false, st, [Event.errRemoveJson m.path])
    | true =>
      let fs1 := st.fsDesc.filter (fun kv => kv.1 ≠ m.path)
      let step2 :=
        if rmRecOk then
          (fs1.filter (fun kv => ¬ (m.path ++ ['/']).isPrefixOf kv.1),
           st.rootEntries.filter (fun n => st.configPath ++ '/' :: n ≠ m.path),
           ([] : List Event))
        else (fs1, st.rootEntries, [Event.errRemoveDir m.path])
      let stFs := { st with fsDesc := step2.1, rootEntries := step2.2.1 }
      match indexOfModel stFs.localModels m with
      | none => (false, stFs, step2.2.2)
      | some _ =>
        let st2 := { stFs with localModels := removeOneModel stFs.localModels m }
        (true, updateAvailableModels st2, step2.2.2)

/-- A directory entry seen by the `QDirIterator` of `scanForModels`. -/
inductive FsEntry where
  | dir (path : QStr)
  | file (name : QStr)
deriving DecidableEq, Repr

/-- One iteration of the `scanForModels` loop. -/
def scanStep (acc : MMState × List Event) (e : FsEntry) : MMState × List Event :=
  match e with
  | .dir p =>
    let rd := getModelInfoJsonFromDir acc.1 p
    if rd.1 = [] then (acc.1, acc.2 ++ rd.2)
    else
      let pm := parseModelInfo rd.1 .Local
      if pm.1.path ≠ [] then
        ({ acc.1 with localModels := (insertLocalModel acc.1.localModels pm.1).2 },
         acc.2 ++ rd.2 ++ pm.2)
      else (acc.1, acc.2 ++ rd.2 ++ pm.2 ++ [Event.errCorruptedJson p])
  | .file n =>
    if completeSuffix n = "tar.gz".data then
      ({ acc.1 with archives := acc.1.archives ++ [n] }, acc.2)
    else acc

/-- `ModelManager::scanForModels`: classify every entry of the scanned
directory — package directories are parsed and upserted, directories
without a readable descriptor are skipped, a parse yielding an empty
`path` would be reported as a corrupted descriptor, and `.tar.gz` files
are recorded in `archives_` — then reconcile. -/
def scanForModels (entries : List FsEntry) (st : MMState) : MMState × List Event :=
  let res := entries.foldl scanStep (st, [])
  (updateAvailableModels res.1, res.2)

/-! ### Shared concrete samples used by witnesses and counterexamples -/

/-- A small concrete base state. -/
def mkState (cfg : QStr) (fs : List (QStr × DescStatus)) (locals remotes : List Model) :
    MMState :=
  { configPath := cfg, cwd := ['/'], rootEntries := [], fsDesc := fs,
    localModels := locals, remoteModels := remotes, newModels := [],
    updatedModels := [], archives := [] }

/-- Sample model `A` (identity key distinct from `mSampleB`). -/
def mSampleA : Model :=
  { shortName := "a".data, modelName := "a-model".data, src := "en".data,
    trg := "de".data, type := "tiny".data, path := "/x/a".data }

/-- Sample model `B`. -/
def mSampleB : Model :=
  { shortName := "b".data, modelName := "b-model".data, src := "en".data,
    trg := "fr".data, type := "tiny".data, path := "/x/b".data }

/-- Sample model with the same identity key as `mSampleB` but a newer
local version, as produced by re-installing the same package. -/
def mSampleB2 : Model :=
  { mSampleB with localversion := some 2, path := "/x/b2".data }

/-! ### Claim theorems -/

/-- C9: `extractTarGz` restores the process working directory to its value
from before the call on every return path — when the initial directory
change fails nothing was changed, and on both the success and the failure
of the inner extraction the saved directory is restored before
returning. -/
theorem extractTarGz_restores_cwd (dest : QStr) (canChdir innerOk : Bool)
    (entries : List QStr) (st : MMState) :
    ((extractTarGz dest canChdir innerOk entries st).2.2.1).cwd = st.cwd := by
  cases canChdir <;> rfl

/-- C4: removal of a Model whose path does not reside under the managed
root returns `false` (the `NotManaged` refusal) and leaves the whole state
— filesystem and `localModels` registry included — untouched, emitting no
error event. -/
theorem removeModel_not_managed (m : Model) (rmJsonOk rmRecOk : Bool) (st : MMState)
    (h : qStartsWith m.path st.configPath = false) :
    removeModel m rmJsonOk rmRecOk st = (false, st, []) := by
  have hm : isManagedModel st m = false := by
    simp [isManagedModel, h]
  simp [removeModel, hm]

/-- C4 witness: a concrete model rooted outside the managed root is
refused with the state unchanged. -/
theorem removeModel_not_managed_witness :
    qStartsWith mSampleA.path (mkState "/cfg".data [] [mSampleA] []).configPath = false ∧
    removeModel mSampleA true true (mkState "/cfg".data [] [mSampleA] []) =
      (false, mkState "/cfg".data [] [mSampleA] [], []) :=
  ⟨by decide, removeModel_not_managed mSampleA true true _ (by decide)⟩

/-- C3 (code bug): `insertLocalModel` computes the order-preserving
position (here 0, since `mSampleA` is strictly below `mSampleB` in the
ordering) but then appends the new model at the end of `localModels_`;
the resulting list is not sorted, contradicting the sorted-insert
behaviour that the computed `position` (and the row notification it is
passed to) promises. -/
theorem insertLocalModel_appends_unsorted :
    insertLocalModel [mSampleB] mSampleA = (true, [mSampleB, mSampleA]) ∧
    Model.keyLt mSampleA mSampleB ∧
    insertPosition [mSampleB] mSampleA = 0 ∧
    ¬ List.Sorted Model.keyLe [mSampleB, mSampleA] := by
  refine ⟨by decide, by decide, by decide, ?_⟩
  intro hs
  have := List.rel_of_sorted_cons hs mSampleA (by decide)
  revert this
  decide

/-- C5 (counterexample): a remote catalog entry with no `url` key is not
discarded from `remoteModels_`: `parseRemoteModels` appends the sentinel
empty Model (`path` and `url` both empty) produced by the failed parse. -/
theorem parseRemoteModels_keeps_sentinel :
    (parseRemoteModels [[]] (mkState "/cfg".data [] [] [])).1.remoteModels =
      [Model.empty] ∧
    Model.empty.path = [] ∧ Model.empty.url = [] := by
  refine ⟨by decide, rfl, rfl⟩

/-- C6 (code bug): a directory whose `model_info.json` exists and is
readable but holds no fields at all (the critical field included — the
descriptor object is empty) is nevertheless registered: because
`getModelInfoJsonFromDir` injects the `path` key, the parse succeeds, a
Model carrying only the injected path is upserted into `localModels`, and
no corruption warning (`errCorruptedJson`) — indeed no event at all — is
emitted during the scan. -/
theorem scanForModels_registers_corrupt_descriptor :
    descAt (mkState "/cfg".data [("/cfg/m".data, .content [])] [] []) "/cfg/m".data =
      .content [] ∧
    (scanForModels [.dir "/cfg/m".data]
        (mkState "/cfg".data [("/cfg/m".data, .content [])] [] [])).1.localModels =
      [{ path := "/cfg/m".data }] ∧
    (scanForModels [.dir "/cfg/m".data]
        (mkState "/cfg".data [("/cfg/m".data, .content [])] [] [])).2 = [] := by
  refine ⟨by decide, by decide, by decide⟩

/-- C8 (counterexample): an extraction yielding exactly one file path does
not always give the destination directory back as the common prefix — a
single entry that itself contains a directory component yields that deeper
directory instead. -/
theorem getCommonPrefixPath_single_nested :
    getCommonPrefixPath [qdirFilePath "/dest".data "sub/file".data] =
      "/dest/sub".data ∧
    "/dest/sub".data ≠ "/dest".data := by
  refine ⟨by decide, by decide⟩

/-! ### Lemmas about `lcp`, `splitOnChar` and `sectionDropLast` -/

theorem splitOnChar_ne_nil (c : Char) (l : QStr) : splitOnChar c l ≠ [] := by
  cases l with
  | nil => simp [splitOnChar]
  | cons x xs =>
    simp only [splitOnChar]
    rcases h : splitOnChar c xs with _ | ⟨h1, t1⟩
    · simp
    · by_cases hx : x = c <;> simp [hx]

theorem joinWith_splitOnChar (c : Char) (l : QStr) :
    joinWith c (splitOnChar c l) = l := by
  induction l with
  | nil => rfl
  | cons x xs ih =>
    simp only [splitOnChar]
    rcases h : splitOnChar c xs with _ | ⟨h1, t1⟩
    · exact absurd h (splitOnChar_ne_nil c xs)
    · rw [h] at ih
      by_cases hx : x = c
      · subst hx
        simp only [if_pos rfl]
        cases t1 with
        | nil => simp only [joinWith] at ih ⊢; rw [ih]; rfl
        | cons a b => simp only [joinWith] at ih ⊢; rw [ih]; rfl
      · simp only [if_neg hx]
        cases t1 with
        | nil => simp only [joinWith] at ih ⊢; rw [ih]
        | cons a b => simp only [joinWith] at ih ⊢; rw [← ih]; rfl

theorem splitOnChar_no_sep (c : Char) (l : QStr) (h : ∀ a ∈ l, a ≠ c) :
    splitOnChar c l = [l] := by
  induction l with
  | nil => rfl
  | cons x xs ih =>
    have hx : x ≠ c := h x (by simp)
    have ih' := ih (fun a ha => h a (by simp [ha]))
    simp only [splitOnChar, ih', if_neg hx]

theorem splitOnChar_append_sep (c : Char) (x q : QStr) (hq : ∀ a ∈ q, a ≠ c) :
    splitOnChar c (x ++ c :: q) = splitOnChar c x ++ [q] := by
  induction x with
  | nil =>
    simp only [List.nil_append, splitOnChar, splitOnChar_no_sep c q hq, if_pos rfl]
    rfl
  | cons a as ih =>
    rcases h : splitOnChar c as with _ | ⟨h1, t1⟩
    · exact absurd h (splitOnChar_ne_nil c as)
    · simp only [List.cons_append, splitOnChar, ih, h]
      by_cases ha : a = c <;> simp [ha, ih, h, List.cons_append]

/-- Dropping the last `/`-separated section of `x ++ "/" ++ q` gives back
`x` whenever `q` contains no separator. -/
theorem sectionDropLast_append (x q : QStr) (hq : ∀ a ∈ q, a ≠ '/') :
    sectionDropLast (x ++ '/' :: q) = x := by
  unfold sectionDropLast
  rw [splitOnChar_append_sep '/' x q hq, List.dropLast_concat,
    joinWith_splitOnChar]

theorem lcp_append (t a b : QStr) : lcp (t ++ a) (t ++ b) = t ++ lcp a b := by
  induction t with
  | nil => rfl
  | cons c cs ih => simp [lcp, ih]

theorem foldl_lcp_map (t : QStr) (l : List QStr) (a : QStr) :
    (l.map (fun r => t ++ r)).foldl lcp (t ++ a) = t ++ l.foldl lcp a := by
  induction l generalizing a with
  | nil => rfl
  | cons x xs ih => simp [List.foldl_cons, lcp_append, ih]

theorem lcp_prefix_left (a b : QStr) : lcp a b <+: a := by
  induction a generalizing b with
  | nil => cases b <;> simp [lcp]
  | cons c cs ih =>
    cases b with
    | nil => simp [lcp]
    | cons d ds =>
      by_cases h : c = d
      · subst h
        simp only [lcp, if_pos rfl]
        exact List.cons_prefix_cons.mpr ⟨rfl, ih ds⟩
      · simp [lcp, h]

theorem lcp_prefix_right (a b : QStr) : lcp a b <+: b := by
  induction a generalizing b with
  | nil => cases b <;> simp [lcp]
  | cons c cs ih =>
    cases b with
    | nil => simp [lcp]
    | cons d ds =>
      by_cases h : c = d
      · subst h
        simp only [lcp, if_pos rfl]
        exact List.cons_prefix_cons.mpr ⟨rfl, ih ds⟩
      · simp [lcp, h]

theorem prefix_lcp (x a b : QStr) (ha : x <+: a) (hb : x <+: b) : x <+: lcp a b := by
  induction x generalizing a b with
  | nil => exact List.nil_prefix
  | cons c cs ih =>
    obtain ⟨ta, rfl⟩ := ha
    obtain ⟨tb, rfl⟩ := hb
    simp only [List.cons_append, lcp, if_pos rfl]
    exact List.cons_prefix_cons.mpr ⟨rfl, ih _ _ (List.prefix_append cs ta) (List.prefix_append cs tb)⟩

theorem foldl_lcp_prefix_init (l : List QStr) (a : QStr) : l.foldl lcp a <+: a := by
  induction l generalizing a with
  | nil => exact List.prefix_refl a
  | cons x xs ih =>
    exact (ih (lcp a x)).trans (lcp_prefix_left a x)

theorem foldl_lcp_prefix_mem (l : List QStr) (a x : QStr) (hx : x ∈ l) :
    l.foldl lcp a <+: x := by
  induction l generalizing a with
  | nil => cases hx
  | cons y ys ih =>
    rcases List.mem_cons.mp hx with rfl | hmem
    · exact (foldl_lcp_prefix_init ys (lcp a x)).trans (lcp_prefix_right a x)
    · exact ih (lcp a y) hmem

/-- C8 (amended): over the destination-joined path list, (a) an extraction
yielding exactly one file path whose entry name is flat (contains no
directory separator) has the destination directory itself as its common
prefix; (b) when every path sits below one top-level folder and at least
two of the relative remainders diverge before any further separator (as
with a folder entry plus a file, or two files directly inside the folder),
the common prefix is exactly that top folder. -/
theorem getCommonPrefixPath_dest_and_top :
    (∀ dest f : QStr, dest ≠ [] → (∀ ch ∈ f, ch ≠ '/') →
      getCommonPrefixPath [qdirFilePath dest f] = dest) ∧
    (∀ (top r0 : QStr) (rs : List QStr),
      (∃ r' ∈ rs, ∀ ch ∈ lcp r0 r', ch ≠ '/') →
      getCommonPrefixPath ((top ++ '/' :: r0) :: rs.map (fun r => top ++ '/' :: r)) =
        top) := by
  constructor
  · intro dest f hd hf
    have hhead : f.head? ≠ some '/' := by
      cases f with
      | nil => simp
      | cons c cs =>
        have := hf c (by simp)
        simp [this]
    rw [qdirFilePath, if_neg hd, if_neg hhead]
    show sectionDropLast (List.foldl lcp (dest ++ '/' :: f) []) = dest
    rw [List.foldl_nil]
    exact sectionDropLast_append dest f hf
  · intro top r0 rs hdiv
    obtain ⟨r', hr', hfree⟩ := hdiv
    have hsplit : ∀ r : QStr, top ++ '/' :: r = (top ++ ['/']) ++ r := by
      intro r; simp
    show sectionDropLast
        ((rs.map (fun r => top ++ '/' :: r)).foldl lcp (top ++ '/' :: r0)) = top
    have hmap : rs.map (fun r => top ++ '/' :: r) =
        rs.map (fun r => (top ++ ['/']) ++ r) := by
      apply List.map_congr_left
      intro r _
      exact hsplit r
    rw [hmap, hsplit r0, foldl_lcp_map]
    have hq1 : rs.foldl lcp r0 <+: r0 := foldl_lcp_prefix_init rs r0
    have hq2 : rs.foldl lcp r0 <+: r' := foldl_lcp_prefix_mem rs r0 r' hr'
    have hq : rs.foldl lcp r0 <+: lcp r0 r' := prefix_lcp _ _ _ hq1 hq2
    have hfree' : ∀ ch ∈ rs.foldl lcp r0, ch ≠ '/' := by
      intro ch hch
      exact hfree ch (hq.sublist.subset hch)
    have : (top ++ ['/']) ++ rs.foldl lcp r0 = top ++ '/' :: rs.foldl lcp r0 := by
      simp
    rw [this]
    exact sectionDropLast_append top _ hfree'

/-- C8 witness: a flat single-file archive extracted to `/dest` has common
prefix `/dest`; a two-entry archive below the single top folder `/d/top`
has common prefix `/d/top`. -/
theorem getCommonPrefixPath_dest_and_top_witness :
    getCommonPrefixPath [qdirFilePath "/dest".data "file".data] = "/dest".data ∧
    getCommonPrefixPath
        (("/d/top".data ++ '/' :: "a".data) ::
          ["b".data].map (fun r => "/d/top".data ++ '/' :: r)) = "/d/top".data :=
  ⟨getCommonPrefixPath_dest_and_top.1 "/dest".data "file".data (by decide) (by decide),
   getCommonPrefixPath_dest_and_top.2 "/d/top".data "a".data ["b".data]
     ⟨"b".data, by simp, by decide⟩⟩

/-- C7: when the first identity match for `m` in `localModels` sits at
position `i`, `insertLocalModel` overwrites exactly that entry in place
and reports the overwrite with `false`: the list keeps its length, `m` now
sits at position `i`, and no duplicate is created — so re-installing the
same archive never duplicates the registry row. -/
theorem insertLocalModel_overwrite (l : List Model) (m : Model) (i : Nat)
    (hi : i < l.length)
    (hmatch : (l.get ⟨i, hi⟩).isSameModel m = true)
    (hfirst : ∀ j (hj : j < i), (l.get ⟨j, hj.trans hi⟩).isSameModel m = false) :
    insertLocalModel l m = (false, l.set i m) ∧
    (l.set i m).length = l.length ∧
    (l.set i m)[i]? = some m := by
  induction l generalizing i with
  | nil => exact absurd hi (by simp)
  | cons x xs ih =>
    cases i with
    | zero =>
      have hx : x.isSameModel m = true := hmatch
      exact ⟨by simp [insertLocalModel, hx], by simp, by simp⟩
    | succ k =>
      have hx : x.isSameModel m = false := hfirst 0 (Nat.succ_pos k)
      have hk : k < xs.length := by simpa using hi
      have hm' : (xs.get ⟨k, hk⟩).isSameModel m = true := hmatch
      have hf' : ∀ j (hj : j < k), (xs.get ⟨j, hj.trans hk⟩).isSameModel m = false :=
        fun j hj => hfirst (j + 1) (Nat.succ_lt_succ hj)
      obtain ⟨h1, _, h3⟩ := ih k hk hm' hf'
      refine ⟨?_, by simp, by simpa using h3⟩
      simp [insertLocalModel, hx, h1]

/-- C7 witness: re-inserting a model with the identity of `mSampleB` but a
newer version overwrites row 0 in place and reports `false`. -/
theorem insertLocalModel_overwrite_witness :
    insertLocalModel [mSampleB] mSampleB2 = (false, [mSampleB].set 0 mSampleB2) ∧
    ([mSampleB].set 0 mSampleB2).length = [mSampleB].length ∧
    ([mSampleB].set 0 mSampleB2)[0]? = some mSampleB2 :=
  insertLocalModel_overwrite [mSampleB] mSampleB2 0 (by decide) (by decide)
    (fun j hj => absurd hj (Nat.not_lt_zero j))

/-- C2: with local registry `{A(v1)}` and remote catalog `{A(v2), B}` —
`A` matching by identity, `B` matching nothing, `v2 > v1` — reconciliation
copies `remoteversion`/`remoteAPI` from the remote `A` onto the stored
local entry (which therefore now carries `remoteversion = v2`), classifies
`B` as new and `A` as updated. -/
theorem updateAvailableModels_reconciles (lA rA rB : Model) (v1 v2 : Int)
    (st : MMState)
    (hloc : st.localModels = [lA]) (hrem : st.remoteModels = [rA, rB])
    (hmatch : lA.isSameModel rA = true)
    (hnomatch : lA.isSameModel rB = false)
    (hlocal : lA.isLocal = true)
    (hlv : lA.localversion = some v1)
    (hrv : rA.remoteversion = some v2)
    (hgt : v1 < v2) :
    (updateAvailableModels st).localModels = [copyRemote lA rA] ∧
    (updateAvailableModels st).newModels = [rB] ∧
    (updateAvailableModels st).updatedModels = [rA] ∧
    (updateAvailableModels st).localModels.map Model.remoteversion = [some v2] := by
  have hpath : lA.path ≠ [] := by simpa [Model.isLocal] using hlocal
  have houtd : (copyRemote lA rA).outdated = true := by
    simp [copyRemote, Model.outdated, Model.isLocal, hrv, hlv, hpath, hgt]
  have hsame2 : (copyRemote lA rA).isSameModel rB = false := hnomatch
  have h1 : reconcileLocal [lA] rA = ([copyRemote lA rA], true, (copyRemote lA rA).outdated) := by
    simp [reconcileLocal, hmatch]
  have h2 : reconcileLocal [copyRemote lA rA] rB = ([copyRemote lA rA], false, false) := by
    simp [reconcileLocal, hsame2]
  have h3 : updateAvailableModels st =
      { st with localModels := [copyRemote lA rA], newModels := [rB],
                updatedModels := [rA] } := by
    simp only [updateAvailableModels, hloc, hrem, List.foldl_cons, List.foldl_nil,
      updateStep, h1, h2, houtd]
    simp
  refine ⟨by rw [h3], by rw [h3], by rw [h3], ?_⟩
  rw [h3]
  simp [copyRemote, hrv]

/-- Concrete local model `A` at version 1 for the reconciliation witness. -/
def mLocalA : Model :=
  { shortName := "a".data, modelName := "a-model".data, src := "en".data,
    trg := "de".data, type := "tiny".data, path := "/cfg/a".data,
    localversion := some 1, localAPI := some 1 }

/-- Concrete remote model `A` at version 2 (same identity as `mLocalA`). -/
def mRemoteA : Model :=
  { shortName := "a".data, modelName := "a-model".data, src := "en".data,
    trg := "de".data, type := "tiny".data, url := "http://host/a".data,
    remoteversion := some 2, remoteAPI := some 1 }

/-- Concrete remote model `B`, matching no local model. -/
def mRemoteB : Model :=
  { shortName := "bb".data, modelName := "b-model".data, src := "en".data,
    trg := "fr".data, type := "tiny".data, url := "http://host/b".data,
    remoteversion := some 1, remoteAPI := some 1 }

/-- C2 witness: the concrete reconciliation of local `{A(v1)}` against
remote `{A(v2), B}`. -/
theorem updateAvailableModels_reconciles_witness :
    (updateAvailableModels
      (mkState "/cfg".data [] [mLocalA] [mRemoteA, mRemoteB])).localModels =
        [copyRemote mLocalA mRemoteA] ∧
    (updateAvailableModels
      (mkState "/cfg".data [] [mLocalA] [mRemoteA, mRemoteB])).newModels = [mRemoteB] ∧
    (updateAvailableModels
      (mkState "/cfg".data [] [mLocalA] [mRemoteA, mRemoteB])).updatedModels =
        [mRemoteA] ∧
    (updateAvailableModels
        (mkState "/cfg".data [] [mLocalA] [mRemoteA, mRemoteB])).localModels.map
      Model.remoteversion = [some 2] :=
  updateAvailableModels_reconciles mLocalA mRemoteA mRemoteB 1 2
    (mkState "/cfg".data [] [mLocalA] [mRemoteA, mRemoteB]) rfl rfl
    (by decide) (by decide) (by decide) rfl rfl (by decide)

/-- C5 (amended): after `parseRemoteModels`, `remoteModels` holds one
entry per element of the catalog's `models` array, sorted by the model
ordering; an entry whose critical `url` field is absent contributes the
sentinel empty Model (none of its other fields salvaged), which therefore
also appears in `remoteModels` rather than being dropped from the list. -/
theorem parseRemoteModels_sorted_with_sentinels (objs : List JsonObj) (st : MMState) :
    List.Sorted Model.keyLe (parseRemoteModels objs st).1.remoteModels ∧
    (parseRemoteModels objs st).1.remoteModels.length = objs.length ∧
    ∀ o ∈ objs, jfind o "url".data = none →
      (parseModelInfo o .Remote).1 = Model.empty ∧
      Model.empty ∈ (parseRemoteModels objs st).1.remoteModels := by
  have hrm : (parseRemoteModels objs st).1.remoteModels =
      List.insertionSort Model.keyLe
        ((objs.map (fun o => parseModelInfo o .Remote)).map Prod.fst) := rfl
  refine ⟨?_, ?_, ?_⟩
  · rw [hrm]
    exact List.sorted_insertionSort _ _
  · rw [hrm, (List.perm_insertionSort _ _).length_eq]
    simp
  · intro o ho hurl
    have hparse : (parseModelInfo o .Remote).1 = Model.empty := by
      simp [parseModelInfo, hurl]
    refine ⟨hparse, ?_⟩
    rw [hrm, (List.perm_insertionSort _ _).mem_iff, ← hparse]
    exact List.mem_map_of_mem Prod.fst (List.mem_map_of_mem _ ho)

/-- C5 amended witness: a one-entry catalog whose entry lacks `url` yields
a sorted `remoteModels` containing the sentinel empty Model. -/
theorem parseRemoteModels_sorted_with_sentinels_witness :
    List.Sorted Model.keyLe
      (parseRemoteModels [[]] (mkState "/cfg".data [] [] [])).1.remoteModels ∧
    (parseModelInfo ([] : JsonObj) .Remote).1 = Model.empty ∧
    Model.empty ∈ (parseRemoteModels [[]] (mkState "/cfg".data [] [] [])).1.remoteModels :=
  ⟨(parseRemoteModels_sorted_with_sentinels [[]] (mkState "/cfg".data [] [] [])).1,
   ((parseRemoteModels_sorted_with_sentinels [[]]
      (mkState "/cfg".data [] [] [])).2.2 [] (by simp) rfl).1,
   ((parseRemoteModels_sorted_with_sentinels [[]]
      (mkState "/cfg".data [] [] [])).2.2 [] (by simp) rfl).2⟩

/-- On a successful directory change, `extractTarGz` reports the
destination-joined entry paths and hands back the state with the working
directory restored (structure eta: the state is unchanged). -/
theorem extractTarGz_chdir_ok (dest : QStr) (innerOk : Bool) (entries : List QStr)
    (st : MMState) :
    extractTarGz dest true innerOk entries st =
      (innerOk, entries.map (qdirFilePath dest), st,
        if innerOk then [] else [Event.errExtractTrouble]) := rfl

theorem jfind_jinsert (k : QStr) (v : JsonValue) (o : JsonObj) :
    jfind (jinsert k v o) k = some v := by
  simp [jfind, jinsert]

theorem parseModelInfo_path_of_jfind (obj : JsonObj) (v : JsonValue)
    (h : jfind obj "path".data = some v) :
    (parseModelInfo obj .Local).1.path = v.asString := by
  simp [parseModelInfo, h]

/-- C1: whenever `writeModel` fails at any gate before the relocation step
— temporary-directory allocation, the directory change or inner run of the
extraction, an empty extraction result, an empty common prefix, or
descriptor validation — it returns the sentinel empty Model, the managed
root gains no entry, and the `localModels` registry is untouched. -/
theorem writeModel_early_failure_clean (fname0 fileBaseName : QStr) (tempOk : Bool)
    (tempPath : QStr) (canChdir innerOk : Bool) (entries : List QStr)
    (timestamp : QStr) (renameOk : Bool) (st : MMState)
    (hfail : tempOk = false ∨ canChdir = false ∨ innerOk = false ∨ entries = [] ∨
      getCommonPrefixPath (entries.map (qdirFilePath tempPath)) = [] ∨
      (validateModel st (getCommonPrefixPath (entries.map (qdirFilePath tempPath)))).1 =
        false) :
    (writeModel fname0 fileBaseName tempOk tempPath canChdir innerOk entries timestamp
        renameOk st).1 = Model.empty ∧
    (writeModel fname0 fileBaseName tempOk tempPath canChdir innerOk entries timestamp
        renameOk st).2.1.rootEntries = st.rootEntries ∧
    (writeModel fname0 fileBaseName tempOk tempPath canChdir innerOk entries timestamp
        renameOk st).2.1.localModels = st.localModels := by
  cases tempOk with
  | false => exact ⟨rfl, rfl, rfl⟩
  | true =>
    cases canChdir with
    | false => exact ⟨rfl, rfl, rfl⟩
    | true =>
      cases innerOk with
      | false =>
        simp only [writeModel, extractTarGz_chdir_ok]
        simp
      | true =>
        by_cases hemp : entries = []
        · subst hemp
          simp only [writeModel, extractTarGz_chdir_ok, List.map_nil]
          simp
        · have hemap : entries.map (qdirFilePath tempPath) ≠ [] := by
            simpa using hemp
          by_cases hpfx : getCommonPrefixPath (entries.map (qdirFilePath tempPath)) = []
          · simp only [writeModel, extractTarGz_chdir_ok, if_neg hemap, if_pos hpfx]
            simp
          · have hval : (validateModel st
                (getCommonPrefixPath (entries.map (qdirFilePath tempPath)))).1 = false := by
              rcases hfail with h | h | h | h | h | h
              · exact absurd h (by simp)
              · exact absurd h (by simp)
              · exact absurd h (by simp)
              · exact absurd h hemp
              · exact absurd h hpfx
              · exact h
            simp only [writeModel, extractTarGz_chdir_ok, if_neg hemap, if_neg hpfx, hval]
            simp

/-- C1 witness: a failed temporary-directory allocation leaves a concrete
state untouched and returns the sentinel. -/
theorem writeModel_early_failure_clean_witness :
    (writeModel "m.tar.gz".data [] false "/tmp/t".data true true ["m/a".data] "7".data
        true (mkState "/cfg".data [] [mSampleA] [])).1 = Model.empty ∧
    (writeModel "m.tar.gz".data [] false "/tmp/t".data true true ["m/a".data] "7".data
        true (mkState "/cfg".data [] [mSampleA] [])).2.1.rootEntries =
      (mkState "/cfg".data [] [mSampleA] []).rootEntries ∧
    (writeModel "m.tar.gz".data [] false "/tmp/t".data true true ["m/a".data] "7".data
        true (mkState "/cfg".data [] [mSampleA] [])).2.1.localModels =
      (mkState "/cfg".data [] [mSampleA] []).localModels :=
  writeModel_early_failure_clean "m.tar.gz".data [] false "/tmp/t".data true true
    ["m/a".data] "7".data true (mkState "/cfg".data [] [mSampleA] []) (Or.inl rfl)

/-- After renaming directory `old` to `npath`, the descriptor content that
was at `old` is found at `npath` (provided `npath` was previously
unoccupied). -/
theorem dlookup_renameFs (old npath : QStr) (fs : List (QStr × DescStatus)) (o : JsonObj)
    (hold : dlookup old fs = some (.content o))
    (hfresh : dlookup npath fs = none) :
    dlookup npath (renameFs old npath fs) = some (.content o) := by
  induction fs with
  | nil => simp [dlookup] at hold
  | cons kv rest ih =>
    obtain ⟨k, v⟩ := kv
    by_cases hk : k = old
    · subst hk
      rw [dlookup, if_pos rfl] at hold
      have hv : v = .content o := Option.some.inj hold
      subst hv
      rw [renameFs, if_pos rfl, dlookup, if_pos rfl]
    · rw [dlookup, if_neg hk] at hold
      have hkn : ¬(k = npath) := by
        intro he
        rw [dlookup, if_pos he] at hfresh
        exact Option.noConfusion hfresh
      have hfresh2 : dlookup npath rest = none := by
        rw [dlookup, if_neg hkn] at hfresh
        exact hfresh
      by_cases hp : (old ++ ['/']).isPrefixOf k
      · have hpre : (old ++ ['/']) <+: k := List.isPrefixOf_iff_prefix.mp hp
        have hlen : old.length < k.length := by
          have h1 := hpre.length_le
          simp only [List.length_append, List.length_cons, List.length_nil] at h1
          omega
        have hkey : ¬(npath ++ k.drop old.length = npath) := by
          intro he
          have h2 : npath ++ k.drop old.length = npath ++ [] := by simpa using he
          have h3 : k.drop old.length = [] := List.append_cancel_left h2
          have h4 := congrArg List.length h3
          simp only [List.length_drop, List.length_nil] at h4
          omega
        rw [renameFs, if_neg hk, if_pos hp, dlookup, if_neg hkey]
        exact ih hold hfresh2
      · rw [renameFs, if_neg hk, if_neg hp, dlookup, if_neg hkn]
        exact ih hold hfresh2

/-- C10: a fully successful install returns a Model whose `path` is the
freshly created directory directly under the managed root; that path is
non-empty, so the model is local, and `isManagedModel` holds for it in the
resulting state — making it eligible for later removal via
`removeModel`. -/
theorem writeModel_success_managed (fname0 fileBaseName tempPath timestamp : QStr)
    (entries : List QStr) (st : MMState) (o : JsonObj)
    (hne : entries ≠ [])
    (hpfx : getCommonPrefixPath (entries.map (qdirFilePath tempPath)) ≠ [])
    (hdesc : dlookup (getCommonPrefixPath (entries.map (qdirFilePath tempPath)))
        st.fsDesc = some (.content o))
    (hfresh : dlookup (st.configPath ++ '/' :: newModelDirName
          (if fname0 = [] then fileBaseName else fname0) timestamp) st.fsDesc = none) :
    (writeModel fname0 fileBaseName true tempPath true true entries timestamp true
        st).1.path =
      st.configPath ++ '/' :: newModelDirName
          (if fname0 = [] then fileBaseName else fname0) timestamp ∧
    (writeModel fname0 fileBaseName true tempPath true true entries timestamp true
        st).1.isLocal = true ∧
    isManagedModel
      (writeModel fname0 fileBaseName true tempPath true true entries timestamp true
        st).2.1
      (writeModel fname0 fileBaseName true tempPath true true entries timestamp true
        st).1 = true := by
  have hemap : entries.map (qdirFilePath tempPath) ≠ [] := by simpa using hne
  have hobj : getModelInfoJsonFromDir st
      (getCommonPrefixPath (entries.map (qdirFilePath tempPath))) =
      (jinsert "path".data
        (.str (getCommonPrefixPath (entries.map (qdirFilePath tempPath)))) o, []) := by
    simp [getModelInfoJsonFromDir, descAt, hdesc]
  have hppath : (parseModelInfo (jinsert "path".data
      (.str (getCommonPrefixPath (entries.map (qdirFilePath tempPath)))) o)
        .Local).1.path =
      getCommonPrefixPath (entries.map (qdirFilePath tempPath)) :=
    parseModelInfo_path_of_jfind _ _ (jfind_jinsert _ _ _)
  have hval1 : (validateModel st
      (getCommonPrefixPath (entries.map (qdirFilePath tempPath)))).1 = true := by
    simp only [validateModel, hobj, jfind_jinsert]
    simp [Model.isLocal, hppath, hpfx]
  have hlook : dlookup
      (st.configPath ++ '/' :: newModelDirName
        (if fname0 = [] then fileBaseName else fname0) timestamp)
      (renameFs (getCommonPrefixPath (entries.map (qdirFilePath tempPath)))
        (st.configPath ++ '/' :: newModelDirName
          (if fname0 = [] then fileBaseName else fname0) timestamp) st.fsDesc) =
      some (.content o) :=
    dlookup_renameFs _ _ _ _ hdesc hfresh
  simp only [writeModel, extractTarGz_chdir_ok, if_neg hemap, if_neg hpfx, hval1]
  simp only [getModelInfoJsonFromDir, descAt, hlook]
  have hpath2 : (parseModelInfo (jinsert "path".data
      (JsonValue.str (st.configPath ++ '/' :: newModelDirName
        (if fname0 = [] then fileBaseName else fname0) timestamp)) o) .Local).1.path =
      st.configPath ++ '/' :: newModelDirName
        (if fname0 = [] then fileBaseName else fname0) timestamp :=
    parseModelInfo_path_of_jfind _ _ (jfind_jinsert _ _ _)
  have hnempty : st.configPath ++ '/' :: newModelDirName
      (if fname0 = [] then fileBaseName else fname0) timestamp ≠ [] := by simp
  have hsw : qStartsWith (st.configPath ++ '/' :: newModelDirName
      (if fname0 = [] then fileBaseName else fname0) timestamp) st.configPath = true := by
    unfold qStartsWith
    rw [List.isPrefixOf_iff_prefix]
    exact List.prefix_append _ _
  refine ⟨hpath2, ?_, ?_⟩
  · simp [Model.isLocal, hpath2, hnempty]
  · simp [isManagedModel, updateAvailableModels, Model.isLocal, hpath2, hsw, hnempty]

/-- C10 witness: a concrete successful install of `x.tar.gz` yields the
model at `/cfg/x-7`, local and managed. -/
theorem writeModel_success_managed_witness :
    (writeModel "x.tar.gz".data [] true "/tmp/t".data true true ["m/a".data] "7".data
        true (mkState "/cfg".data [("/tmp/t/m".data, .content [])] [] [])).1.path =
      (mkState "/cfg".data [("/tmp/t/m".data, .content [])] [] []).configPath ++
        '/' :: newModelDirName
          (if ("x.tar.gz".data : QStr) = [] then [] else "x.tar.gz".data) "7".data ∧
    (writeModel "x.tar.gz".data [] true "/tmp/t".data true true ["m/a".data] "7".data
        true (mkState "/cfg".data [("/tmp/t/m".data, .content [])] [] [])).1.isLocal =
      true ∧
    isManagedModel
      (writeModel "x.tar.gz".data [] true "/tmp/t".data true true ["m/a".data] "7".data
        true (mkState "/cfg".data [("/tmp/t/m".data, .content [])] [] [])).2.1
      (writeModel "x.tar.gz".data [] true "/tmp/t".data true true ["m/a".data] "7".data
        true (mkState "/cfg".data [("/tmp/t/m".data, .content [])] [] [])).1 = true :=
  writeModel_success_managed "x.tar.gz".data [] "/tmp/t".data "7".data ["m/a".data]
    (mkState "/cfg".data [("/tmp/t/m".data, .content [])] [] []) []
    (by decide) (by decide) (by decide) (by decide)
